import Mathlib

/-!
Verification of `embedding/word_extraction.py` (multilingual_kws).

The Python source is shallowly embedded in Lean: time values (seconds) are
modelled as rationals `ℚ`, the file system and external collaborators
(`sox`, `textgrid`, `os.walk`, the csv reader) are modelled as explicit
parameters, and each Python function becomes an executable Lean `def`
following the source line by line.
-/

namespace WordExtraction

/-- Embedding of `extract_one_second(duration_s, start_s, end_s)`
(`word_extraction.py`, lines 105-120).  Times are rationals.
`np.minimum` becomes `min`; the second clamp branch reads the already
reassigned `new_start_s = 0`, hence `min duration_s (0 + 1)`. -/
def extract_one_second (duration_s start_s end_s : ℚ) : ℚ × ℚ :=
  if duration_s < 1 then (0, duration_s)
  else
    let center_s := start_s + ((end_s - start_s) / 2)
    let new_start_s := center_s - 1/2
    let new_end_s := center_s + 1/2
    let p : ℚ × ℚ :=
      if new_end_s > duration_s then (duration_s - 1, duration_s)
      else (new_start_s, new_end_s)
    if p.1 < 0 then (0, min duration_s (0 + 1)) else p

/-- Embedding of `os.path.splitext`, restricted to plain file names (the names
fed to it in this file contain no path separator): split off the extension at
the last dot, unless every character before that dot is itself a dot
(CPython `genericpath._splitext`). -/
def splitext (s : String) : String × String :=
  match ((s.data.enum.filter (fun p => p.2 == '.')).map Prod.fst).getLast? with
  | none => (s, "")
  | some i =>
    if (s.data.take i).all (fun c => c == '.') then (s, "")
    else (String.mk (s.data.take i), String.mk (s.data.drop i))

/-- Body of the inner `for textgrid in files` loop of `generate_filemap`
(`word_extraction.py`, lines 46-50): strip the extension, fail on a
duplicate key, otherwise record `root/textgrid` under the stripped name.
The mapping is an association list in insertion order. -/
def filemapAddFile (root : String) (filemap : List (String × String))
    (tgname : String) : Except String (List (String × String)) :=
  let mp3name := (splitext tgname).1
  if mp3name ∈ filemap.map Prod.fst then
    Except.error (mp3name ++ " already present in filemap")
  else
    Except.ok (filemap ++ [(mp3name, root ++ "/" ++ tgname)])

/-- Body of the outer `for root, dirs, files in os.walk(...)` loop of
`generate_filemap` (lines 41-50), including the `if not files: continue`
guard. -/
def filemapAddDir (filemap : List (String × String))
    (entry : String × List String) : Except String (List (String × String)) :=
  if entry.2.isEmpty then Except.ok filemap
  else entry.2.foldlM (filemapAddFile entry.1) filemap

/-- Embedding of `generate_filemap` (lines 35-51).  The `os.walk` traversal
is a parameter `walk`: the list of `(root, files-in-root)` pairs in walk
order, whose first entry is the top-level directory being scanned. -/
def generate_filemap (walk : List (String × List String)) :
    Except String (List (String × String)) :=
  walk.foldlM filemapAddDir []

/-- The stripped base names of every file in the walk, in encounter order. -/
def filemapKeys (walk : List (String × List String)) : List String :=
  walk.flatMap (fun e => e.2.map (fun f => (splitext f).1))

/-- The association list `generate_filemap` produces when no key collides. -/
def filemapEntries (walk : List (String × List String)) :
    List (String × String) :=
  walk.flatMap (fun e => e.2.map (fun f => ((splitext f).1, e.1 ++ "/" ++ f)))

/-- An alignment interval of a TextGrid tier: label and bounds in seconds. -/
structure Interval where
  mark : String
  minTime : ℚ
  maxTime : ℚ
deriving DecidableEq

/-- Accumulated state of the `generate_wordtimings` scan: the `timings`
dictionary (as a total function, every word starting at `[]`) and the
`notfound` list. -/
structure WTState where
  timings : String → List (String × ℚ × ℚ)
  notfound : List (String × String)

/-- Body of the inner `for word in words` loop of `generate_wordtimings`
(lines 76-91): skip words outside the search set; on a filemap miss record
`(mp3name, word)` in `notfound` and continue; on a hit append
`(mp3name, minTime, maxTime)` for every interval of the first tier whose
mark equals the word.  `tgOf` maps a textgrid path to its first tier's
intervals (the `textgrid.TextGrid.fromFile(tgf)[0]` collaborator). -/
def processWord (words_to_search_for : List String)
    (mp3_to_textgrid : List (String × String))
    (tgOf : String → List Interval) (mp3name_no_extension : String)
    (st : WTState) (word : String) : WTState :=
  if word ∉ words_to_search_for then st
  else
    match mp3_to_textgrid.lookup mp3name_no_extension with
    | none =>
        { st with notfound := st.notfound ++ [(mp3name_no_extension, word)] }
    | some tgf =>
        let occs := ((tgOf tgf).filter (fun i => i.mark == word)).map
          (fun i => (mp3name_no_extension, i.minTime, i.maxTime))
        { st with
          timings := fun w =>
            if w = word then st.timings w ++ occs else st.timings w }

/-- Body of the per-row work of `generate_wordtimings` (lines 74-91): strip
the extension from the recording name in column 0 and process every word of
the whitespace-split transcript column. -/
def processRow (words_to_search_for : List String)
    (mp3_to_textgrid : List (String × String))
    (tgOf : String → List Interval) (st : WTState)
    (row : String × List String) : WTState :=
  (row.2).foldl
    (processWord words_to_search_for mp3_to_textgrid tgOf (splitext row.1).1)
    st

/-- Embedding of `generate_wordtimings` (lines 54-92).  The csv reader is a
parameter `rows`: each row contributes its column 0 (recording file name)
and its whitespace-split column 2 (transcript words); the `ix == 0` header
skip is the `tail`.  Returns the `timings` map and the `notfound` list. -/
def generate_wordtimings (words_to_search_for : List String)
    (mp3_to_textgrid : List (String × String))
    (tgOf : String → List Interval) (rows : List (String × List String)) :
    (String → List (String × ℚ × ℚ)) × List (String × String) :=
  let st := rows.tail.foldl
    (processRow words_to_search_for mp3_to_textgrid tgOf)
    ⟨fun _ => [], []⟩
  (st.timings, st.notfound)

/-- The trim bounds and pad amount computed by `extract_shot_from_mp3`
(lines 137-141): occurrences shorter than 1 s keep their bounds and get a
symmetric pad; longer ones are trimmed through `extract_one_second` with no
pad. -/
def extract_shot_trim_pad (duration start_s end_s : ℚ) : (ℚ × ℚ) × ℚ :=
  if end_s - start_s < 1 then ((start_s, end_s), (1 - (end_s - start_s)) / 2)
  else (extract_one_second duration start_s end_s, 0)

/-- The file-system view `extract_shot_from_mp3` consults: which paths exist
as files and which as directories. -/
structure FS where
  files : List String
  dirs : List String

/-- Outcome of one `extract_shot_from_mp3` call: one of its three
`ValueError`s, or the sox transform invocation with the parameters the code
passes to it. -/
inductive ShotResult where
  | sourceMissing (mp3path : String)
  | destDirMissing (dest_dir : String)
  | alreadyExists (dest : String)
  | transformed (trim : ℚ × ℚ) (pad_amt_s : ℚ) (src dest : String)
deriving DecidableEq

/-- True exactly on the three `raise ValueError` outcomes. -/
def ShotResult.isError : ShotResult → Bool
  | .transformed _ _ _ _ => false
  | _ => true

/-- The destination paths written by the external transform: empty unless
the transform was actually invoked. -/
def ShotResult.writes : ShotResult → List String
  | .transformed _ _ _ dest => [dest]
  | _ => []

/-- Embedding of `extract_shot_from_mp3` (lines 123-157).  The `sox`
duration query is the parameter `duration`; the checks happen in source
order: source existence, trim/pad computation, destination-directory
existence, destination-file existence, then the transform. -/
def extract_shot_from_mp3 (fs : FS) (duration : ℚ)
    (mp3name_no_ext : String) (start_s end_s : ℚ)
    (dest_dir cv_clipsdir : String) : ShotResult :=
  let mp3path := cv_clipsdir ++ "/" ++ mp3name_no_ext ++ ".mp3"
  if mp3path ∉ fs.files then .sourceMissing mp3path
  else
    let tp := extract_shot_trim_pad duration start_s end_s
    if dest_dir ∉ fs.dirs then .destDirMissing dest_dir
    else
      let dest := dest_dir ++ "/" ++ mp3name_no_ext ++ ".wav"
      if dest ∈ fs.files then .alreadyExists dest
      else .transformed tp.1 tp.2 mp3path dest

/-- C1: for duration_s ≥ 1 and 0 ≤ start_s ≤ end_s ≤ duration_s, the window
returned by `extract_one_second` is exactly 1.0 wide and lies inside
[0, duration_s], whatever combination of the two clamp branches fires. -/
theorem extract_one_second_window_invariant
    (duration_s start_s end_s : ℚ)
    (hdur : 1 ≤ duration_s) (h0 : 0 ≤ start_s)
    (hse : start_s ≤ end_s) (hed : end_s ≤ duration_s) :
    (extract_one_second duration_s start_s end_s).2
        - (extract_one_second duration_s start_s end_s).1 = 1
      ∧ 0 ≤ (extract_one_second duration_s start_s end_s).1
      ∧ (extract_one_second duration_s start_s end_s).2 ≤ duration_s := by
  unfold extract_one_second
  have hnot : ¬ duration_s < 1 := not_lt.mpr hdur
  simp only [hnot, if_false]
  split
  · next hend =>
    split
    · next hstart =>
      refine ⟨?_, le_refl 0, min_le_left _ _⟩
      have h1 : (0 : ℚ) + 1 ≤ duration_s := by linarith
      have : min duration_s ((0 : ℚ) + 1) = 1 := by
        rw [min_eq_right h1]; norm_num
      simp [this, hdur]
    · next hstart =>
      refine ⟨by ring, by linarith, le_refl _⟩
  · next hend =>
    push_neg at hend
    split
    · next hstart =>
      refine ⟨?_, le_refl 0, min_le_left _ _⟩
      have h1 : (0 : ℚ) + 1 ≤ duration_s := by linarith
      have : min duration_s ((0 : ℚ) + 1) = 1 := by
        rw [min_eq_right h1]; norm_num
      simp [this, hdur]
    · next hstart =>
      push_neg at hstart
      exact ⟨by ring, by linarith, by linarith⟩

/-- Witness for C1 at (duration_s, start_s, end_s) = (10, 9.5, 9.9). -/
theorem extract_one_second_window_invariant_witness :
    (extract_one_second 10 (19/2) (99/10)).2
        - (extract_one_second 10 (19/2) (99/10)).1 = 1
      ∧ 0 ≤ (extract_one_second 10 (19/2) (99/10)).1
      ∧ (extract_one_second 10 (19/2) (99/10)).2 ≤ 10 :=
  extract_one_second_window_invariant 10 (19/2) (99/10)
    (by norm_num) (by norm_num) (by norm_num) (by norm_num)

/-- C2: for duration_s < 1 the function returns (0, duration_s) exactly,
independently of start_s and end_s. -/
theorem extract_one_second_short_recording
    (duration_s start_s end_s : ℚ)
    (hdur : duration_s < 1) (h0 : 0 ≤ start_s)
    (hse : start_s ≤ end_s) (hed : end_s ≤ duration_s) :
    extract_one_second duration_s start_s end_s = (0, duration_s) := by
  unfold extract_one_second
  simp [hdur]

/-- Witness for C2 at (duration_s, start_s, end_s) = (0.5, 0.1, 0.3). -/
theorem extract_one_second_short_recording_witness :
    extract_one_second (1/2) (1/10) (3/10) = (0, 1/2) :=
  extract_one_second_short_recording (1/2) (1/10) (3/10)
    (by norm_num) (by norm_num) (by norm_num) (by norm_num)

/-- C3: the three concrete evaluations for a 10-second recording. -/
theorem extract_one_second_examples :
    extract_one_second 10 4 5 = (4, 5)
      ∧ extract_one_second 10 0 (2/10) = (0, 1)
      ∧ extract_one_second 10 (95/10) (99/10) = (9, 10) := by
  refine ⟨?_, ?_, ?_⟩ <;> norm_num [extract_one_second]

/-- C4: an occurrence shorter than 1 s keeps its trim bounds and gets the
symmetric pad `(1 - (end_s - start_s)) / 2`; an occurrence at least 1 s long
is trimmed to `extract_one_second duration start_s end_s` with pad 0. -/
theorem extract_shot_trim_pad_branches (duration start_s end_s : ℚ) :
    (end_s - start_s < 1 →
      extract_shot_trim_pad duration start_s end_s
        = ((start_s, end_s), (1 - (end_s - start_s)) / 2))
    ∧ (1 ≤ end_s - start_s →
      extract_shot_trim_pad duration start_s end_s
        = (extract_one_second duration start_s end_s, 0)) := by
  constructor
  · intro h
    simp only [extract_shot_trim_pad]
    rw [if_pos h]
  · intro h
    simp only [extract_shot_trim_pad]
    rw [if_neg (not_lt.mpr h)]

/-- Witness for C4: the short branch at (10, 2, 2.3), the long branch at
(10, 2, 4). -/
theorem extract_shot_trim_pad_branches_witness :
    extract_shot_trim_pad 10 2 (23/10) = ((2, 23/10), (1 - (23/10 - 2)) / 2)
      ∧ extract_shot_trim_pad 10 2 4 = (extract_one_second 10 2 4, 0) :=
  ⟨(extract_shot_trim_pad_branches 10 2 (23/10)).1 (by norm_num),
   (extract_shot_trim_pad_branches 10 2 4).2 (by norm_num)⟩

/-- C5: when the destination directory does not exist, or the destination
file already exists, `extract_shot_from_mp3` raises one of its guard errors
and the external transform is never invoked, so nothing is written. -/
theorem extract_shot_guard_errors (fs : FS) (duration : ℚ)
    (mp3name_no_ext : String) (start_s end_s : ℚ)
    (dest_dir cv_clipsdir : String)
    (h : dest_dir ∉ fs.dirs
        ∨ dest_dir ++ "/" ++ mp3name_no_ext ++ ".wav" ∈ fs.files) :
    (extract_shot_from_mp3 fs duration mp3name_no_ext start_s end_s
        dest_dir cv_clipsdir).isError = true
      ∧ (extract_shot_from_mp3 fs duration mp3name_no_ext start_s end_s
        dest_dir cv_clipsdir).writes = [] := by
  simp only [extract_shot_from_mp3]
  by_cases hmp3 : (cv_clipsdir ++ "/" ++ mp3name_no_ext ++ ".mp3") ∈ fs.files
  · rcases h with h | h
    · simp [hmp3, h, ShotResult.isError, ShotResult.writes]
    · by_cases hdir : dest_dir ∈ fs.dirs
      · simp [hmp3, hdir, h, ShotResult.isError, ShotResult.writes]
      · simp [hmp3, hdir, ShotResult.isError, ShotResult.writes]
  · simp [hmp3, ShotResult.isError, ShotResult.writes]

/-- Witness for C5: missing destination directory, and existing destination
file, on concrete file systems. -/
theorem extract_shot_guard_errors_witness :
    ((extract_shot_from_mp3 ⟨["clips/rec1.mp3"], []⟩ 10 "rec1" 2 4
        "out" "clips").isError = true
      ∧ (extract_shot_from_mp3 ⟨["clips/rec1.mp3"], []⟩ 10 "rec1" 2 4
        "out" "clips").writes = [])
    ∧ ((extract_shot_from_mp3 ⟨["clips/rec1.mp3", "out/rec1.wav"], ["out"]⟩
        10 "rec1" 2 4 "out" "clips").isError = true
      ∧ (extract_shot_from_mp3 ⟨["clips/rec1.mp3", "out/rec1.wav"], ["out"]⟩
        10 "rec1" 2 4 "out" "clips").writes = []) :=
  ⟨extract_shot_guard_errors ⟨["clips/rec1.mp3"], []⟩ 10 "rec1" 2 4
      "out" "clips" (Or.inl (by decide)),
   extract_shot_guard_errors ⟨["clips/rec1.mp3", "out/rec1.wav"], ["out"]⟩
      10 "rec1" 2 4 "out" "clips" (Or.inr (by decide))⟩

/-- An `Except.ok` on the left of a bind just continues. -/
theorem except_ok_bind {ε α β : Type} (a : α) (f : α → Except ε β) :
    (Except.ok a >>= f) = f a := rfl

/-- An `Except.error` on the left of a bind short-circuits. -/
theorem except_error_bind {ε α β : Type} (e : ε) (f : α → Except ε β) :
    ((Except.error e : Except ε α) >>= f) = Except.error e := rfl

/-- C8 counterexample: the walk whose top-level directory directly contains
`a.txt`.  The code does not ignore that file: the returned mapping contains
the entry for it. -/
theorem generate_filemap_root_file_counterexample :
    generate_filemap [("root", ["a.txt"])]
        = Except.ok [("a", "root/a.txt")]
      ∧ ("a", "root/a.txt") ∈ [(("a" : String), ("root/a.txt" : String))] := by
  constructor
  · rfl
  · exact List.mem_singleton.mpr rfl

/-- C8 amended: `generate_filemap` skips exactly the walk entries whose file
list is empty (in the expected corpus layout, the top-level directory);
removing such an entry from the walk does not change the result, while files
directly in the top-level directory are processed like any others when
present. -/
theorem generate_filemap_skips_empty_dirs
    (pre post : List (String × List String)) (root : String) :
    generate_filemap (pre ++ (root, []) :: post)
      = generate_filemap (pre ++ post) := by
  have aux : ∀ (pre : List (String × List String))
      (acc : List (String × String)),
      (pre ++ (root, []) :: post).foldlM filemapAddDir acc
        = (pre ++ post).foldlM filemapAddDir acc := by
    intro pre
    induction pre with
    | nil =>
        intro acc
        simp only [List.nil_append, List.foldlM_cons]
        have h : filemapAddDir acc (root, []) = Except.ok acc := rfl
        rw [h, except_ok_bind]
    | cons e pre ih =>
        intro acc
        simp only [List.cons_append, List.foldlM_cons]
        cases h : filemapAddDir acc e with
        | error msg => rw [except_error_bind, except_error_bind]
        | ok acc₁ => rw [except_ok_bind, except_ok_bind]; exact ih acc₁
  exact aux pre []

/-- If the inner file loop of `generate_filemap` succeeds, the result is the
accumulator extended by one entry per file in order, the stripped names of
the files are pairwise distinct, and none of them was already a key of the
accumulator. -/
theorem filemap_files_ok (root : String) :
    ∀ (files : List String) (acc m : List (String × String)),
    files.foldlM (filemapAddFile root) acc = Except.ok m →
    m = acc ++ files.map (fun f => ((splitext f).1, root ++ "/" ++ f))
      ∧ (files.map fun f => (splitext f).1).Nodup
      ∧ ∀ f ∈ files, (splitext f).1 ∉ acc.map Prod.fst := by
  intro files
  induction files with
  | nil =>
      intro acc m hm
      rw [List.foldlM_nil] at hm
      cases hm
      exact ⟨by simp, List.nodup_nil, by simp⟩
  | cons f fs ih =>
      intro acc m hm
      rw [List.foldlM_cons] at hm
      cases hstep : filemapAddFile root acc f with
      | error e => rw [hstep, except_error_bind] at hm; cases hm
      | ok acc₁ =>
          rw [hstep, except_ok_bind] at hm
          simp only [filemapAddFile] at hstep
          by_cases hkey : (splitext f).1 ∈ acc.map Prod.fst
          · rw [if_pos hkey] at hstep; cases hstep
          · rw [if_neg hkey] at hstep
            cases hstep
            obtain ⟨hm1, hm2, hm3⟩ := ih _ _ hm
            refine ⟨?_, ?_, ?_⟩
            · rw [hm1]; simp [List.append_assoc]
            · rw [List.map_cons, List.nodup_cons]
              refine ⟨?_, hm2⟩
              intro hmem
              obtain ⟨g, hg, hgf⟩ := List.mem_map.mp hmem
              exact hm3 g hg (by rw [hgf]; simp)
            · intro g hg
              rcases List.mem_cons.mp hg with rfl | hg
              · exact hkey
              · intro hmem
                exact hm3 g hg (by simp [hmem])

/-- If the walk loop of `generate_filemap` succeeds from some accumulator,
the result is the accumulator extended by `filemapEntries`, the stripped
base names over the whole walk are pairwise distinct, and none of them was
already a key of the accumulator. -/
theorem filemap_walk_ok :
    ∀ (walk : List (String × List String)) (acc m : List (String × String)),
    walk.foldlM filemapAddDir acc = Except.ok m →
    m = acc ++ filemapEntries walk
      ∧ (filemapKeys walk).Nodup
      ∧ ∀ k ∈ filemapKeys walk, k ∉ acc.map Prod.fst := by
  intro walk
  induction walk with
  | nil =>
      intro acc m hm
      rw [List.foldlM_nil] at hm
      cases hm
      exact ⟨by simp [filemapEntries], by simp [filemapKeys], by simp [filemapKeys]⟩
  | cons e rest ih =>
      intro acc m hm
      rw [List.foldlM_cons] at hm
      have hstep_eq : filemapAddDir acc e = e.2.foldlM (filemapAddFile e.1) acc := by
        obtain ⟨r, files⟩ := e
        cases files with
        | nil => rfl
        | cons f fs => rfl
      rw [hstep_eq] at hm
      cases hstep : e.2.foldlM (filemapAddFile e.1) acc with
      | error msg => rw [hstep, except_error_bind] at hm; cases hm
      | ok acc₁ =>
          rw [hstep, except_ok_bind] at hm
          obtain ⟨h1, h2, h3⟩ := filemap_files_ok e.1 e.2 acc acc₁ hstep
          obtain ⟨g1, g2, g3⟩ := ih acc₁ m hm
          have hacc₁ : acc₁.map Prod.fst
              = acc.map Prod.fst ++ e.2.map (fun f => (splitext f).1) := by
            rw [h1]; simp [List.map_map]
          have hkeys : filemapKeys (e :: rest)
              = e.2.map (fun f => (splitext f).1) ++ filemapKeys rest := by
            simp [filemapKeys]
          have hentries : filemapEntries (e :: rest)
              = e.2.map (fun f => ((splitext f).1, e.1 ++ "/" ++ f))
                ++ filemapEntries rest := by
            simp [filemapEntries]
          refine ⟨?_, ?_, ?_⟩
          · rw [g1, h1, hentries, List.append_assoc]
          · rw [hkeys, List.nodup_append]
            refine ⟨h2, g2, ?_⟩
            intro k hk1 hk2
            exact g3 k hk2 (by rw [hacc₁]; exact List.mem_append_right _ hk1)
          · rw [hkeys]
            intro k hk
            rcases List.mem_append.mp hk with hk | hk
            · obtain ⟨f, hf, rfl⟩ := List.mem_map.mp hk
              exact h3 f hf
            · intro hmem
              exact g3 k hk (by rw [hacc₁]; exact List.mem_append_left _ hmem)

/-- C6: when two files of the walk share a stripped base name the index
build fails with an error; the empty walk yields the empty mapping; and on
success every file of the walk is mapped from its stripped base name to its
full path. -/
theorem generate_filemap_spec :
    (∀ walk : List (String × List String),
      ¬ (filemapKeys walk).Nodup →
        ∃ msg, generate_filemap walk = Except.error msg)
    ∧ generate_filemap [] = Except.ok []
    ∧ (∀ (walk : List (String × List String)) (m : List (String × String)),
        generate_filemap walk = Except.ok m →
        ∀ (root : String) (files : List String) (f : String),
          (root, files) ∈ walk → f ∈ files →
          ((splitext f).1, root ++ "/" ++ f) ∈ m) := by
  refine ⟨?_, rfl, ?_⟩
  · intro walk hdup
    cases h : generate_filemap walk with
    | error msg => exact ⟨msg, rfl⟩
    | ok m =>
        obtain ⟨-, h2, -⟩ := filemap_walk_ok walk [] m h
        exact absurd h2 hdup
  · intro walk m hm root files f hw hf
    obtain ⟨h1, -, -⟩ := filemap_walk_ok walk [] m hm
    rw [h1]
    simp only [List.nil_append]
    unfold filemapEntries
    exact List.mem_flatMap.mpr ⟨(root, files), hw, List.mem_map.mpr ⟨f, hf, rfl⟩⟩

/-- Witness for C6: a duplicated base name (`a.txt`, `a.wav`) makes the build
fail, and a successful build maps `a.txt` to `r/a.txt`. -/
theorem generate_filemap_spec_witness :
    (∃ msg, generate_filemap [("r", ["a.txt", "a.wav"])] = Except.error msg)
    ∧ ((splitext "a.txt").1, "r" ++ "/" ++ "a.txt")
        ∈ [(("a" : String), ("r/a.txt" : String))] :=
  ⟨generate_filemap_spec.1 [("r", ["a.txt", "a.wav"])] (by decide),
   generate_filemap_spec.2.2 [("r", ["a.txt"])] [("a", "r/a.txt")] (by rfl)
     "r" ["a.txt"] "a.txt" (by decide) (by decide)⟩

/-- The occurrences one transcript token equal to `w` contributes: nothing
on a filemap miss, otherwise one tuple per interval of the textgrid whose
mark is exactly `w`. -/
def lookupOccs (mp3_to_textgrid : List (String × String))
    (tgOf : String → List Interval) (key w : String) :
    List (String × ℚ × ℚ) :=
  match mp3_to_textgrid.lookup key with
  | none => []
  | some tgf => ((tgOf tgf).filter (fun i => i.mark == w)).map
      (fun i => (key, i.minTime, i.maxTime))

/-- The `notfound` entries one row contributes: one `(base-name, word)` pair
per transcript token that is in the search set and whose recording is
missing from the filemap. -/
def rowNotFound (words_to_search_for : List String)
    (mp3_to_textgrid : List (String × String))
    (row : String × List String) : List (String × String) :=
  (row.2.filter (fun t => decide (t ∈ words_to_search_for)
      && (mp3_to_textgrid.lookup (splitext row.1).1).isNone)).map
    (fun t => ((splitext row.1).1, t))

/-- One `processWord` step on a searched word appends exactly its
`lookupOccs` to that word's timing list. -/
theorem processWord_timings_mem {words_to_search_for : List String}
    {mp3_to_textgrid : List (String × String)} {tgOf : String → List Interval}
    {key : String} {st : WTState} {word : String}
    (hw : word ∈ words_to_search_for) :
    (processWord words_to_search_for mp3_to_textgrid tgOf key st word).timings
        word
      = st.timings word ++ lookupOccs mp3_to_textgrid tgOf key word := by
  simp only [processWord, lookupOccs]
  rw [if_neg (not_not_intro hw)]
  cases hlk : mp3_to_textgrid.lookup key with
  | none => simp
  | some tgf => simp

/-- One `processWord` step never touches the timing list of a different
word. -/
theorem processWord_timings_ne {words_to_search_for : List String}
    {mp3_to_textgrid : List (String × String)} {tgOf : String → List Interval}
    {key : String} {st : WTState} {word w : String} (h : w ≠ word) :
    (processWord words_to_search_for mp3_to_textgrid tgOf key st word).timings w
      = st.timings w := by
  simp only [processWord]
  by_cases hmem : word ∉ words_to_search_for
  · rw [if_pos hmem]
  · rw [if_neg hmem]
    cases hlk : mp3_to_textgrid.lookup key with
    | none => simp
    | some tgf => simp [h]

/-- One `processWord` step appends a `notfound` entry exactly when the word
is searched for and the filemap lookup misses. -/
theorem processWord_notfound_step {words_to_search_for : List String}
    {mp3_to_textgrid : List (String × String)} {tgOf : String → List Interval}
    {key : String} {st : WTState} {word : String} :
    (processWord words_to_search_for mp3_to_textgrid tgOf key st word).notfound
      = st.notfound
        ++ (if decide (word ∈ words_to_search_for)
              && (mp3_to_textgrid.lookup key).isNone
            then [(key, word)] else []) := by
  simp only [processWord]
  by_cases hmem : word ∉ words_to_search_for
  · rw [if_pos hmem]
    have hd : decide (word ∈ words_to_search_for) = false :=
      decide_eq_false hmem
    simp [hd]
  · rw [if_neg hmem]
    have hd : decide (word ∈ words_to_search_for) = true :=
      decide_eq_true (not_not.mp hmem)
    cases hlk : mp3_to_textgrid.lookup key with
    | none => simp [hd]
    | some tgf => simp [hd]

/-- Folding `processWord` over the tokens of a row: the timing list of a
searched word `w` grows by one `lookupOccs` block per token equal to `w`. -/
theorem foldl_processWord_timings {words_to_search_for : List String}
    {mp3_to_textgrid : List (String × String)} {tgOf : String → List Interval}
    {key w : String} (hw : w ∈ words_to_search_for) :
    ∀ (tokens : List String) (st : WTState),
    ((tokens.foldl
        (processWord words_to_search_for mp3_to_textgrid tgOf key) st).timings) w
      = st.timings w ++ (tokens.filter (fun t => t == w)).flatMap
          (fun _ => lookupOccs mp3_to_textgrid tgOf key w) := by
  intro tokens
  induction tokens with
  | nil => intro st; simp
  | cons t ts ih =>
      intro st
      rw [List.foldl_cons]
      by_cases htw : t = w
      · subst htw
        rw [ih, processWord_timings_mem hw,
          List.filter_cons_of_pos (by simp), List.flatMap_cons,
          List.append_assoc]
      · rw [ih, processWord_timings_ne (Ne.symm htw),
          List.filter_cons_of_neg (by simp [htw])]

/-- Folding `processWord` over the tokens of a row: `notfound` grows by one
entry per searched token whose filemap lookup misses. -/
theorem foldl_processWord_notfound {words_to_search_for : List String}
    {mp3_to_textgrid : List (String × String)} {tgOf : String → List Interval}
    {key : String} :
    ∀ (tokens : List String) (st : WTState),
    (tokens.foldl
        (processWord words_to_search_for mp3_to_textgrid tgOf key) st).notfound
      = st.notfound
        ++ (tokens.filter (fun t => decide (t ∈ words_to_search_for)
              && (mp3_to_textgrid.lookup key).isNone)).map
            (fun t => (key, t)) := by
  intro tokens
  induction tokens with
  | nil => intro st; simp
  | cons t ts ih =>
      intro st
      rw [List.foldl_cons, ih, processWord_notfound_step, List.filter_cons]
      cases hp : (decide (t ∈ words_to_search_for)
          && (mp3_to_textgrid.lookup key).isNone) with
      | false => simp [hp]
      | true => simp [hp]

/-- Folding `processRow` over the data rows: the timing list of a searched
word is the concatenation of the per-row contributions. -/
theorem foldl_processRow_timings {words_to_search_for : List String}
    {mp3_to_textgrid : List (String × String)} {tgOf : String → List Interval}
    {w : String} (hw : w ∈ words_to_search_for) :
    ∀ (rows : List (String × List String)) (st : WTState),
    ((rows.foldl
        (processRow words_to_search_for mp3_to_textgrid tgOf) st).timings) w
      = st.timings w ++ rows.flatMap (fun row =>
          (row.2.filter (fun t => t == w)).flatMap
            (fun _ => lookupOccs mp3_to_textgrid tgOf (splitext row.1).1 w)) := by
  intro rows
  induction rows with
  | nil => intro st; simp
  | cons row rest ih =>
      intro st
      rw [List.foldl_cons, ih, List.flatMap_cons, ← List.append_assoc]
      congr 1
      exact foldl_processWord_timings hw row.2 st

/-- Folding `processRow` over the data rows: `notfound` is the concatenation
of the per-row `rowNotFound` contributions. -/
theorem foldl_processRow_notfound {words_to_search_for : List String}
    {mp3_to_textgrid : List (String × String)} {tgOf : String → List Interval} :
    ∀ (rows : List (String × List String)) (st : WTState),
    (rows.foldl
        (processRow words_to_search_for mp3_to_textgrid tgOf) st).notfound
      = st.notfound
        ++ rows.flatMap (rowNotFound words_to_search_for mp3_to_textgrid) := by
  intro rows
  induction rows with
  | nil => intro st; simp
  | cons row rest ih =>
      intro st
      rw [List.foldl_cons, ih, List.flatMap_cons, ← List.append_assoc]
      congr 1
      exact foldl_processWord_notfound row.2 st

/-- C7: a searched word absent from every data row ends with an empty
timing list and no `notfound` entry mentioning it; and `notfound` is exactly
the concatenation, over the data rows in order, of one entry per searched
token whose recording is missing from the filemap — so each miss yields
exactly one entry and the scan continues past it. -/
theorem generate_wordtimings_notfound_spec :
    (∀ (words_to_search_for : List String)
        (mp3_to_textgrid : List (String × String))
        (tgOf : String → List Interval) (rows : List (String × List String))
        (w : String),
      w ∈ words_to_search_for →
      (∀ row ∈ rows.tail, w ∉ row.2) →
      (generate_wordtimings words_to_search_for mp3_to_textgrid tgOf rows).1 w
          = []
        ∧ ((generate_wordtimings words_to_search_for mp3_to_textgrid tgOf
            rows).2.filter (fun p => p.2 == w)) = [])
    ∧ (∀ (words_to_search_for : List String)
        (mp3_to_textgrid : List (String × String))
        (tgOf : String → List Interval) (rows : List (String × List String)),
        (generate_wordtimings words_to_search_for mp3_to_textgrid tgOf rows).2
          = rows.tail.flatMap
              (rowNotFound words_to_search_for mp3_to_textgrid)) := by
  constructor
  · intro words_to_search_for mp3_to_textgrid tgOf rows w hw habs
    constructor
    · have h := @foldl_processRow_timings words_to_search_for mp3_to_textgrid
        tgOf w hw rows.tail ⟨fun _ => [], []⟩
      have hnil : rows.tail.flatMap (fun row =>
          (row.2.filter (fun t => t == w)).flatMap
            (fun _ =>
              lookupOccs mp3_to_textgrid tgOf (splitext row.1).1 w)) = [] := by
        rw [List.flatMap_eq_nil_iff]
        intro row hrow
        have hfil : row.2.filter (fun t => t == w) = [] := by
          rw [List.filter_eq_nil_iff]
          intro t ht hbeq
          exact habs row hrow (by rwa [beq_iff_eq.mp hbeq] at ht)
        rw [hfil]
        rfl
      simpa [generate_wordtimings, hnil] using h
    · have h := @foldl_processRow_notfound words_to_search_for mp3_to_textgrid
        tgOf rows.tail (⟨fun _ => [], []⟩ : WTState)
      have hmain : (generate_wordtimings words_to_search_for mp3_to_textgrid
          tgOf rows).2
          = rows.tail.flatMap
              (rowNotFound words_to_search_for mp3_to_textgrid) := by
        simpa [generate_wordtimings] using h
      rw [hmain, List.filter_eq_nil_iff]
      intro p hp hbeq
      obtain ⟨row, hrow, hprow⟩ := List.mem_flatMap.mp hp
      obtain ⟨t, htfil, hpt⟩ := List.mem_map.mp hprow
      have ht : t ∈ row.2 := (List.mem_filter.mp htfil).1
      have hpw : p.2 = w := beq_iff_eq.mp hbeq
      have htw : t = w := by rw [← hpt] at hpw; exact hpw
      exact habs row hrow (htw ▸ ht)
  · intro words_to_search_for mp3_to_textgrid tgOf rows
    have h := @foldl_processRow_notfound words_to_search_for mp3_to_textgrid
      tgOf rows.tail (⟨fun _ => [], []⟩ : WTState)
    simpa [generate_wordtimings] using h

/-- Witness for C7: `"a"` is searched for but absent from the single data
row, so its timing list is empty and no `notfound` entry mentions it. -/
theorem generate_wordtimings_notfound_spec_witness :
    (generate_wordtimings ["a"] [] (fun _ => [])
        [("h", []), ("r.mp3", ["b"])]).1 "a" = []
      ∧ ((generate_wordtimings ["a"] [] (fun _ => [])
        [("h", []), ("r.mp3", ["b"])]).2.filter (fun p => p.2 == "a")) = [] :=
  generate_wordtimings_notfound_spec.1 ["a"] [] (fun _ => [])
    [("h", []), ("r.mp3", ["b"])] "a" (by decide) (by decide)

/-- C9: for a searched word `w`, the final timing list is exactly the
per-row concatenation in which an interval contributes `(base-name, start,
end)` precisely when its mark satisfies `i.mark == w` — exact string
equality, so empty, pause, case-variant or substring-variant labels never
match a different target word. -/
theorem generate_wordtimings_exact_label_match
    (words_to_search_for : List String)
    (mp3_to_textgrid : List (String × String)) (tgOf : String → List Interval)
    (rows : List (String × List String)) (w : String)
    (hw : w ∈ words_to_search_for) :
    (generate_wordtimings words_to_search_for mp3_to_textgrid tgOf rows).1 w
      = rows.tail.flatMap (fun row =>
          (row.2.filter (fun t => t == w)).flatMap
            (fun _ => lookupOccs mp3_to_textgrid tgOf (splitext row.1).1 w)) := by
  have h := @foldl_processRow_timings words_to_search_for mp3_to_textgrid
    tgOf w hw rows.tail (⟨fun _ => [], []⟩ : WTState)
  simpa [generate_wordtimings] using h

/-- Witness for C9: of the three intervals (pause label, exact label,
case-variant label) only the exactly matching one is returned. -/
theorem generate_wordtimings_exact_label_match_witness :
    (generate_wordtimings ["a"] [("r", "t")]
        (fun _ => [⟨"", 0, 1⟩, ⟨"a", 1, 2⟩, ⟨"A", 2, 3⟩])
        [("h", []), ("r.mp3", ["a"])]).1 "a"
      = [("r", 1, 2)] :=
  (generate_wordtimings_exact_label_match ["a"] [("r", "t")]
      (fun _ => [⟨"", 0, 1⟩, ⟨"a", 1, 2⟩, ⟨"A", 2, 3⟩])
      [("h", []), ("r.mp3", ["a"])] "a" (by decide)).trans (by decide)

/-- Concatenating a constant block once per element multiplies lengths. -/
theorem length_flatMap_const {α β : Type} (l : List α) (L : List β) :
    (l.flatMap (fun _ => L)).length = l.length * L.length := by
  induction l with
  | nil => simp
  | cons a l ih => simp [List.flatMap_cons, ih]; ring

/-- C10: for a single data row whose recording is in the filemap, a word
occurring k times in the transcript and matching m intervals of the
textgrid ends with exactly k * m timing tuples; and when no interval
matches (m = 0) the word contributes neither a timing tuple nor a
`notfound` entry. -/
theorem generate_wordtimings_occurrence_count
    (words_to_search_for : List String)
    (mp3_to_textgrid : List (String × String)) (tgOf : String → List Interval)
    (hdr row : String × List String) (w tgf : String)
    (hw : w ∈ words_to_search_for)
    (hlk : mp3_to_textgrid.lookup (splitext row.1).1 = some tgf)
    (hk : 1 ≤ (row.2.filter (fun t => t == w)).length) :
    ((generate_wordtimings words_to_search_for mp3_to_textgrid tgOf
        [hdr, row]).1 w).length
        = (row.2.filter (fun t => t == w)).length
            * ((tgOf tgf).filter (fun i => i.mark == w)).length
      ∧ ((tgOf tgf).filter (fun i => i.mark == w) = [] →
          (generate_wordtimings words_to_search_for mp3_to_textgrid tgOf
            [hdr, row]).1 w = []
          ∧ ((generate_wordtimings words_to_search_for mp3_to_textgrid tgOf
            [hdr, row]).2.filter (fun p => p.2 == w)) = []) := by
  have htim : (generate_wordtimings words_to_search_for mp3_to_textgrid tgOf
      [hdr, row]).1 w
      = (row.2.filter (fun t => t == w)).flatMap
          (fun _ => lookupOccs mp3_to_textgrid tgOf (splitext row.1).1 w) := by
    have h := @foldl_processRow_timings words_to_search_for mp3_to_textgrid
      tgOf w hw [row] (⟨fun _ => [], []⟩ : WTState)
    simpa [generate_wordtimings] using h
  have hocc : lookupOccs mp3_to_textgrid tgOf (splitext row.1).1 w
      = ((tgOf tgf).filter (fun i => i.mark == w)).map
          (fun i => ((splitext row.1).1, i.minTime, i.maxTime)) := by
    simp [lookupOccs, hlk]
  constructor
  · rw [htim, hocc, length_flatMap_const, List.length_map]
  · intro hm
    constructor
    · rw [htim, hocc, hm]
      simp
    · have hnf : (generate_wordtimings words_to_search_for mp3_to_textgrid tgOf
          [hdr, row]).2 = rowNotFound words_to_search_for mp3_to_textgrid row := by
        have h := @foldl_processRow_notfound words_to_search_for
          mp3_to_textgrid tgOf [row] (⟨fun _ => [], []⟩ : WTState)
        simpa [generate_wordtimings] using h
      have hempty : rowNotFound words_to_search_for mp3_to_textgrid row = [] := by
        simp [rowNotFound, hlk]
      rw [hnf, hempty]
      rfl

/-- Witness for C10: the word `"a"` occurs twice in the row and matches one
interval, producing 2 * 1 = 2 timing tuples. -/
theorem generate_wordtimings_occurrence_count_witness :
    ((generate_wordtimings ["a"] [("r", "t")]
        (fun _ => [⟨"a", 0, 1⟩, ⟨"b", 1, 2⟩])
        [("h", []), ("r.mp3", ["a", "x", "a"])]).1 "a").length = 2 :=
  ((generate_wordtimings_occurrence_count ["a"] [("r", "t")]
      (fun _ => [⟨"a", 0, 1⟩, ⟨"b", 1, 2⟩]) ("h", []) ("r.mp3", ["a", "x", "a"])
      "a" "t" (by decide) (by decide) (by decide)).1).trans (by decide)

end WordExtraction
